import Mathlib

/-!
Verification development for the twitter-client-mcp credential core.

This file shallowly embeds the two core components of the repository —
the redacting logger and the secret store (src/unnamed/part_000,
src/dist/config.js, src/src/config.ts) — as executable Lean definitions,
and settles the frozen claims C1..C10 about them.

Modelling conventions:
* JS strings are Lean `String`s; most functions work over `List Char`.
* `process.env` is a record of the nine named values the code touches,
  each an `Option String` (`none` = unset).  JS truthiness of an
  environment value is `truthy` below (set and non-empty).
* Node `Buffer`s are `List Nat` (byte lists).  `sodium_malloc n` yields a
  buffer of `n` bytes pre-filled with the libsodium garbage byte 0xdb;
  `buf.write(s)` encodes `s` as UTF-8 and writes only as many whole
  characters as fit; `buf.toString('utf8')` decodes the whole buffer,
  mapping invalid bytes to U+FFFD.
* Thrown JS errors become `Except` / explicit error constructors; the
  distinct error messages of the source map to distinct constructors.
* chalk's ANSI colour codes around the level tag are elided from the
  logger output; they contain no letters from any payload.
-/

namespace TwitterMcp

/-! ## Basic character and string utilities -/

/-- The characters matched by the JavaScript regex class `\s`
(whitespace as used by `String.prototype.trim` as well). -/
def jsSpace (c : Char) : Bool :=
  c == ' ' || c == '\t' || c == '\n' || c == '\x0b' || c == '\x0c' ||
  c == '\r' || c == ' ' || c == ' ' ||
  (0x2000 ≤ c.toNat && c.toNat ≤ 0x200a) ||
  c == ' ' || c == ' ' || c == ' ' || c == ' ' ||
  c == '　' || c == '﻿'

/-- ASCII-case lowering, as the case-insensitive regex flag treats the
ASCII patterns of the source. -/
def lowerChar (c : Char) : Char :=
  if 'A' ≤ c && c ≤ 'Z' then Char.ofNat (c.toNat + 32) else c

def lowerList (l : List Char) : List Char := l.map lowerChar

/-- `String.prototype.toLowerCase` restricted to ASCII (all keys the code
lowers are ASCII). -/
def jsLower (s : String) : String := String.mk (lowerList s.data)

def isHexDig (c : Char) : Bool :=
  ('0' ≤ c && c ≤ '9') || ('a' ≤ c && c ≤ 'f') || ('A' ≤ c && c ≤ 'F')

/-- Boolean prefix test on character lists. -/
def isPrefixL : List Char → List Char → Bool
  | [], _ => true
  | _ :: _, [] => false
  | a :: as, b :: bs => a == b && isPrefixL as bs

/-- Case-insensitive prefix test: does the (lowercase) pattern `w` match
the front of `l`? -/
def ciStartsWith (w : List Char) (l : List Char) : Bool :=
  isPrefixL w (lowerList l)

/-- Substring containment on character lists. -/
def containsSubL (needle : List Char) : List Char → Bool
  | [] => isPrefixL needle []
  | c :: rest => isPrefixL needle (c :: rest) || containsSubL needle rest

/-- Substring containment on strings (`String.prototype.includes`). -/
def containsSub (hay needle : String) : Bool :=
  containsSubL needle.data hay.data

/-- JS `String.prototype.trim` (both ends, `jsSpace` characters). -/
def jsTrimL (l : List Char) : List Char :=
  ((l.dropWhile jsSpace).reverse.dropWhile jsSpace).reverse

def jsTrim (s : String) : String := String.mk (jsTrimL s.data)

/-- Split a character list at every occurrence of the character `c`
(the behaviour of JS `String.prototype.split` with a one-character
separator: always returns at least one piece, empty pieces preserved). -/
def splitChar (c : Char) : List Char → List (List Char)
  | [] => [[]]
  | x :: xs =>
    match splitChar c xs with
    | [] => [[]]
    | p :: ps => if x == c then [] :: p :: ps else (x :: p) :: ps

/-- Interleave the character `c` between the pieces
(`Array.prototype.join` with a one-character separator). -/
def intercalChar (c : Char) : List (List Char) → List Char
  | [] => []
  | p :: ps =>
    match ps with
    | [] => p
    | q :: qs => p ++ c :: intercalChar c (q :: qs)

/-! ## Redacting logger (redactSensitive / logger in part_000 and
dist/config.js) -/

/-- Scanner for the first replace pass; the fuel argument (instantiated
with the input length, an upper bound on the number of scan steps)
makes the recursion structural.  Every step consumes at least one
character, so the fuel is never exhausted on the wrapper's call. -/
def pass1Go : Nat → List Char → List Char
  | 0, l => l
  | _ + 1, [] => []
  | fuel + 1, c :: rest =>
    if (List.take 64 (c :: rest)).length == 64
        && (List.take 64 (c :: rest)).all isHexDig then
      ("[REDACTED_KEY]".data) ++ pass1Go fuel (List.drop 64 (c :: rest))
    else
      c :: pass1Go fuel rest

/-- First replace pass: `/[0-9a-fA-F]{64}/g` → `[REDACTED_KEY]`.
The regex scanner tries each position left to right; a match consumes
exactly 64 hex characters. -/
def pass1 (l : List Char) : List Char := pass1Go l.length l

/-- Character class `[^=&\s]` of the second pass. -/
def runChar (c : Char) : Bool := !(c == '=' || c == '&' || jsSpace c)

/-- Scanner for the second replace pass (fuel as in `pass1Go`). -/
def pass2Go : Nat → List Char → List Char
  | 0, l => l
  | _ + 1, [] => []
  | fuel + 1, c :: rest =>
    if 32 ≤ (List.takeWhile runChar (c :: rest)).length then
      ("[REDACTED_LONG_VALUE]".data)
        ++ pass2Go fuel (List.drop (List.takeWhile runChar (c :: rest)).length (c :: rest))
    else
      c :: pass2Go fuel rest

/-- Second replace pass: `/[^=&\s]{32,}/g` → `[REDACTED_LONG_VALUE]`.
A greedy match consumes a maximal run of `runChar` characters when that
run has length at least 32. -/
def pass2 (l : List Char) : List Char := pass2Go l.length l

/-- The keyword alternation of the third pass, in source order
(private_key, secret, key, token, password). -/
def kwList : List (List Char) :=
  [['p', 'r', 'i', 'v', 'a', 't', 'e', '_', 'k', 'e', 'y'],
   ['s', 'e', 'c', 'r', 'e', 't'],
   ['k', 'e', 'y'],
   ['t', 'o', 'k', 'e', 'n'],
   ['p', 'a', 's', 's', 'w', 'o', 'r', 'd']]

/-- Character class `[^&\s]` of the third pass (the value part). -/
def valChar (c : Char) : Bool := !(c == '&' || jsSpace c)

/-- Attempt to match `(private_key|secret|key|token|password)=([^&\s]+)`
(case-insensitively) at the head of `l`.  Returns the length of the
matched keyword and of the greedy value run.  No keyword is a prefix of
another, so at most one alternative can prefix-match a given position. -/
def matchKV (l : List Char) : Option (Nat × Nat) :=
  match kwList.findSome? (fun w => if ciStartsWith w l then some w.length else none) with
  | none => none
  | some kl =>
    match List.drop kl l with
    | '=' :: after =>
      let vr := List.takeWhile valChar after
      if vr.length == 0 then none else some (kl, vr.length)
    | _ => none

/-- Scanner for the third replace pass (fuel as in `pass1Go`). -/
def pass3Go : Nat → List Char → List Char
  | 0, l => l
  | _ + 1, [] => []
  | fuel + 1, c :: rest =>
    match matchKV (c :: rest) with
    | some kv =>
      (List.take kv.1 (c :: rest)) ++ ("=[REDACTED]".data)
        ++ pass3Go fuel (List.drop (kv.1 + 1 + kv.2) (c :: rest))
    | none => c :: pass3Go fuel rest

/-- Third replace pass:
`/(private_key|secret|key|token|password)=([^&\s]+)/gi` → `$1=[REDACTED]`.
`$1` keeps the original (case-preserved) matched keyword text. -/
def pass3 (l : List Char) : List Char := pass3Go l.length l

/-- `redactSensitive` on a string: the three chained `.replace` calls. -/
def redactStringL (l : List Char) : List Char := pass3 (pass2 (pass1 l))

def redactString (s : String) : String := String.mk (redactStringL s.data)

/-- The closed set of JS value shapes the logger can receive.  `typeof`
dispatch: strings, objects (key/value mappings), and the remaining
scalars (numbers, booleans, null, undefined) which `redactSensitive`
returns unchanged. -/
inductive JsVal where
  | vstr (s : String)
  | vnum (n : Int)
  | vbool (b : Bool)
  | vnull
  | vundef
  | vobj (fields : List (String × JsVal))
deriving Repr

/-- Does the lowercased field name contain "key" or "secret"? -/
def sensitiveName (k : String) : Bool :=
  containsSub (jsLower k) "key" || containsSub (jsLower k) "secret"

mutual

/-- `redactSensitive` (part_000 lines 8-25 / dist/config.js lines 4-21):
strings get the three regex passes; objects are rebuilt with any
key/secret-named field replaced wholesale by the marker and other values
recursively sanitized; anything else is returned as-is (`return input`). -/
def redactSensitive : JsVal → JsVal
  | .vstr s => .vstr (redactString s)
  | .vobj fields => .vobj (redactFields fields)
  | v => v

/-- The `Object.entries` loop inside `redactSensitive`. -/
def redactFields : List (String × JsVal) → List (String × JsVal)
  | [] => []
  | (k, v) :: rest =>
    (k, if sensitiveName k then .vstr "[REDACTED]" else redactSensitive v)
      :: redactFields rest

end

/-- JS stringification as performed by the template-literal join:
objects print as `[object Object]`. -/
def jsToString : JsVal → String
  | .vstr s => s
  | .vnum n => toString n
  | .vbool b => if b then "true" else "false"
  | .vnull => "null"
  | .vundef => "undefined"
  | .vobj _ => "[object Object]"

inductive LogLevel where
  | error | warn | info
deriving DecidableEq, Repr

def levelTag : LogLevel → String
  | .error => "[ERROR]"
  | .warn => "[WARN]"
  | .info => "[INFO]"

/-- One `logger.<level>(...args)` call: each argument is sanitized, the
results are joined with spaces and written to stderr as a single line
(the trailing newline is kept; chalk colour codes are elided). -/
def logLine (lvl : LogLevel) (args : List JsVal) : String :=
  levelTag lvl ++ " " ++ String.intercalate " " (args.map (fun a => jsToString (redactSensitive a))) ++ "\n"

/-! ## Process environment and credential bundle -/

/-- The nine named process-level values the core reads or writes.
`none` models an unset variable. -/
structure Env where
  twUsername : Option String
  twPassword : Option String
  twEmail : Option String
  twApiKey : Option String
  twApiSecretKey : Option String
  twAccessToken : Option String
  twAccessTokenSecret : Option String
  proxyUrl : Option String
  envFileHash : Option String
deriving Repr, DecidableEq

/-- JS truthiness of an environment value: set and non-empty. -/
def truthy (o : Option String) : Bool :=
  match o with
  | none => false
  | some s => s ≠ ""

/-- The credential bundle (TwitterCredentials in dist/config.d.ts). -/
structure Credentials where
  username : String
  password : String
  email : String
  apiKey : Option String
  apiSecretKey : Option String
  accessToken : Option String
  accessTokenSecret : Option String
  proxyUrl : Option String
deriving Repr, DecidableEq

/-- Property access `credentials[name]` on the parsed bundle (used by
validateEnv's `getCredentials()[v?.toLowerCase()]`): only the eight real
field names resolve; anything else is `undefined`. -/
def credLookup (c : Credentials) (name : String) : Option String :=
  if name == "username" then some c.username
  else if name == "password" then some c.password
  else if name == "email" then some c.email
  else if name == "apiKey" then c.apiKey
  else if name == "apiSecretKey" then c.apiSecretKey
  else if name == "accessToken" then c.accessToken
  else if name == "accessTokenSecret" then c.accessTokenSecret
  else if name == "proxyUrl" then c.proxyUrl
  else none

/-! ## JSON serialization (JSON.stringify of the credentials object) -/

/-- JSON.stringify escaping of a single character inside a string. -/
def escapeChar (c : Char) : List Char :=
  if c == '"' then ['\\', '"']
  else if c == '\\' then ['\\', '\\']
  else if c == '\n' then ['\\', 'n']
  else if c == '\r' then ['\\', 'r']
  else if c == '\t' then ['\\', 't']
  else if c == '\x08' then ['\\', 'b']
  else if c == '\x0c' then ['\\', 'f']
  else if c.toNat < 0x20 then
    ['\\', 'u', '0', '0',
     (if c.toNat / 16 < 10 then Char.ofNat (48 + c.toNat / 16) else Char.ofNat (87 + c.toNat / 16)),
     (if c.toNat % 16 < 10 then Char.ofNat (48 + c.toNat % 16) else Char.ofNat (87 + c.toNat % 16))]
  else [c]

/-- A JSON string literal for `s`. -/
def jstr (s : String) : List Char :=
  '"' :: (s.data.flatMap escapeChar) ++ ['"']

/-- The fields JSON.stringify emits for a credentials object, in object
literal order; `undefined` (None) fields are omitted. -/
def fieldList (c : Credentials) : List (String × String) :=
  [("username", c.username), ("password", c.password), ("email", c.email)]
    ++ (match c.apiKey with | some v => [("apiKey", v)] | none => [])
    ++ (match c.apiSecretKey with | some v => [("apiSecretKey", v)] | none => [])
    ++ (match c.accessToken with | some v => [("accessToken", v)] | none => [])
    ++ (match c.accessTokenSecret with | some v => [("accessTokenSecret", v)] | none => [])
    ++ (match c.proxyUrl with | some v => [("proxyUrl", v)] | none => [])

/-- Render `"k":"v"` members separated by commas and close the brace. -/
def renderFields : List (String × String) → List Char
  | [] => ['\x7d']
  | [(k, v)] => jstr k ++ ':' :: jstr v ++ ['\x7d']
  | (k, v) :: rest => jstr k ++ ':' :: jstr v ++ ',' :: renderFields rest

/-- `JSON.stringify(credentials)`. -/
def encodeCredentials (c : Credentials) : String :=
  String.mk ('\x7b' :: renderFields (fieldList c))

/-! ## The protected buffer (sodium_malloc / Buffer.write / toString) -/

/-- JS `String.prototype.length`: UTF-16 code units. -/
def utf16Len (s : String) : Nat :=
  (s.data.map (fun c => if c.toNat ≥ 0x10000 then 2 else 1)).sum

/-- UTF-8 encoding of one scalar value. -/
def utf8Char (c : Char) : List Nat :=
  let n := c.toNat
  if n < 0x80 then [n]
  else if n < 0x800 then [0xc0 + n / 64, 0x80 + n % 64]
  else if n < 0x10000 then [0xe0 + n / 4096, 0x80 + (n / 64) % 64, 0x80 + n % 64]
  else [0xf0 + n / 262144, 0x80 + (n / 4096) % 64, 0x80 + (n / 64) % 64, 0x80 + n % 64]

/-- `buf.write(s)`: encode characters to UTF-8 sequentially, stopping
before the first character that no longer fits in the remaining
capacity (Node writes no partial characters). -/
def writeChars (cap : Nat) : List Char → List Nat
  | [] => []
  | c :: rest =>
    let bs := utf8Char c
    if bs.length ≤ cap then bs ++ writeChars (cap - bs.length) rest
    else []

/-- The buffer as produced by
`sodium_malloc(json.length); buf.write(json)`: capacity is the UTF-16
length, written bytes are padded with libsodium's 0xdb fill. -/
def mkBuffer (s : String) : List Nat :=
  let cap := utf16Len s
  let w := writeChars cap s.data
  w ++ List.replicate (cap - w.length) 0xdb

/-- Is `b` a UTF-8 continuation byte? -/
def contByte (b : Nat) : Bool := 0x80 ≤ b && b < 0xc0

/-- Decoder loop for `buf.toString('utf8')` (fuel as in `pass1Go`). -/
def utf8DecodeGo : Nat → List Nat → List Char
  | 0, _ => []
  | _ + 1, [] => []
  | fuel + 1, b :: rest =>
    if b < 0x80 then Char.ofNat b :: utf8DecodeGo fuel rest
    else if 0xc2 ≤ b && b < 0xe0 then
      match rest with
      | b2 :: rest2 =>
        if contByte b2 then Char.ofNat ((b - 0xc0) * 64 + (b2 - 0x80)) :: utf8DecodeGo fuel rest2
        else '�' :: utf8DecodeGo fuel (b2 :: rest2)
      | [] => ['�']
    else if 0xe0 ≤ b && b < 0xf0 then
      match rest with
      | b2 :: b3 :: rest3 =>
        if contByte b2 && contByte b3 then
          Char.ofNat ((b - 0xe0) * 4096 + (b2 - 0x80) * 64 + (b3 - 0x80)) :: utf8DecodeGo fuel rest3
        else '�' :: utf8DecodeGo fuel (b2 :: b3 :: rest3)
      | _ => ['�']
    else if 0xf0 ≤ b && b < 0xf5 then
      match rest with
      | b2 :: b3 :: b4 :: rest4 =>
        if contByte b2 && contByte b3 && contByte b4 then
          Char.ofNat ((b - 0xf0) * 262144 + (b2 - 0x80) * 4096 + (b3 - 0x80) * 64 + (b4 - 0x80))
            :: utf8DecodeGo fuel rest4
        else '�' :: utf8DecodeGo fuel (b2 :: b3 :: b4 :: rest4)
      | _ => ['�']
    else '�' :: utf8DecodeGo fuel rest

/-- `buf.toString('utf8')`: decode, mapping invalid sequences to U+FFFD. -/
def utf8Decode (l : List Nat) : List Char := utf8DecodeGo l.length l

/-! ## JSON.parse (restricted to the flat object-of-strings shape the
store ever writes; on anything else — in particular on truncated or
garbage-suffixed buffers — it fails like JSON.parse throws) -/

def jsonWs (c : Char) : Bool := c == ' ' || c == '\t' || c == '\n' || c == '\r'

def unhex (c : Char) : Option Nat :=
  if '0' ≤ c && c ≤ '9' then some (c.toNat - 48)
  else if 'a' ≤ c && c ≤ 'f' then some (c.toNat - 87)
  else if 'A' ≤ c && c ≤ 'F' then some (c.toNat - 55)
  else none

/-- Parse the body of a JSON string literal after the opening quote
(fuel as in `pass1Go`). -/
def parseStrBody : Nat → List Char → Option (List Char × List Char)
  | 0, _ => none
  | _ + 1, [] => none
  | fuel + 1, c :: rest =>
    if c == '"' then some ([], rest)
    else if c == '\\' then
      match rest with
      | [] => none
      | e :: rest2 =>
        if e == 'u' then
          match rest2 with
          | h1 :: h2 :: h3 :: h4 :: rest6 =>
            match unhex h1, unhex h2, unhex h3, unhex h4 with
            | some a, some b, some cc, some d =>
              match parseStrBody fuel rest6 with
              | some (s, r) => some (Char.ofNat (a * 4096 + b * 256 + cc * 16 + d) :: s, r)
              | none => none
            | _, _, _, _ => none
          | _ => none
        else
          match
            (if e == '"' then some '"'
             else if e == '\\' then some '\\'
             else if e == '/' then some '/'
             else if e == 'n' then some '\n'
             else if e == 'r' then some '\r'
             else if e == 't' then some '\t'
             else if e == 'b' then some '\x08'
             else if e == 'f' then some '\x0c'
             else none) with
          | some d =>
            match parseStrBody fuel rest2 with
            | some (s, r) => some (d :: s, r)
            | none => none
          | none => none
    else if c.toNat < 0x20 then none
    else
      match parseStrBody fuel rest with
      | some (s, r) => some (c :: s, r)
      | none => none

/-- Parse the members of the object after the opening brace; `fuel`
bounds the number of members. -/
def parseMembers (fuel : Nat) (l : List Char) : Option (List (String × String) × List Char) :=
  match fuel with
  | 0 => none
  | fuel + 1 =>
    let l := l.dropWhile jsonWs
    match l with
    | '\x7d' :: r => some ([], r)
    | '"' :: r =>
      match parseStrBody (fuel + 1) r with
      | none => none
      | some (k, r2) =>
        match (r2.dropWhile jsonWs) with
        | ':' :: r3 =>
          match (r3.dropWhile jsonWs) with
          | '"' :: r4 =>
            match parseStrBody (fuel + 1) r4 with
            | none => none
            | some (v, r5) =>
              match (r5.dropWhile jsonWs) with
              | ',' :: r6 =>
                match parseMembers fuel r6 with
                | some (fs, r7) => some ((String.mk k, String.mk v) :: fs, r7)
                | none => none
              | '\x7d' :: r6 => some ([(String.mk k, String.mk v)], r6)
              | _ => none
          | _ => none
        | _ => none
    | _ => none

/-- First-match association lookup (duplicate keys never arise from the
encoder). -/
def alookup (name : String) : List (String × String) → Option String
  | [] => none
  | (k, v) :: rest => if k == name then some v else alookup name rest

/-- Rebuild the typed bundle from the parsed object.  JSON.parse itself
returns a plain object; the mandatory fields are always present in any
buffer the store writes, so requiring them here loses nothing. -/
def buildCreds (fs : List (String × String)) : Option Credentials :=
  match alookup "username" fs, alookup "password" fs, alookup "email" fs with
  | some u, some p, some e =>
    some ⟨u, p, e, alookup "apiKey" fs, alookup "apiSecretKey" fs,
          alookup "accessToken" fs, alookup "accessTokenSecret" fs,
          alookup "proxyUrl" fs⟩
  | _, _, _ => none

/-- `JSON.parse` on the decoded buffer text, restricted to the
credentials shape; `none` models a thrown SyntaxError. -/
def parseCreds (s : String) : Option Credentials :=
  match s.data.dropWhile jsonWs with
  | '\x7b' :: r =>
    match parseMembers (s.data.length + 1) r with
    | some (fs, rest) =>
      if (rest.dropWhile jsonWs).isEmpty then buildCreds fs else none
    | none => none
  | _ => none

/-! ## The secret store state and operations -/

deriving instance DecidableEq for Except

/-- `secretBuffer` / `secretLoaded` module state of part_000 and
dist/config.js. -/
structure StoreState where
  secretBuffer : Option (List Nat)
  secretLoaded : Bool
deriving Repr, DecidableEq

def emptyState : StoreState := ⟨none, false⟩

/-- The store state right after a successful load of bundle `c`. -/
def loadedState (c : Credentials) : StoreState :=
  ⟨some (mkBuffer (encodeCredentials c)), true⟩

inductive CredErr where
  /-- "Twitter credentials are required but not available." (and the
  validateEnv variant of the missing-credentials message). -/
  | unavailable
  /-- A SyntaxError thrown by `JSON.parse` inside getCredentials. -/
  | parseFailed
deriving Repr, DecidableEq

/-- `getCredentials()` (part_000 lines 144-154, dist/config.js lines
85-95): fails if no buffer is resident; otherwise decodes the buffer,
zeroes and releases it, marks the store empty, and only then parses —
so the state is reset even when the parse throws. -/
def getCredentials (st : StoreState) : Except CredErr Credentials × StoreState :=
  match st.secretBuffer with
  | none => (.error .unavailable, st)
  | some buf =>
    let json := String.mk (utf8Decode buf)
    match parseCreds json with
    | some c => (.ok c, emptyState)
    | none => (.error .parseFailed, emptyState)

/-- The three distinct failure modes of `loadSecrets` in part_000,
distinguished by their thrown messages ("Cannot proceed without Twitter
credentials: " followed by the inner reason). -/
inductive LoadErr where
  /-- readFileSync threw: `.env` missing or unreadable. -/
  | fileUnreadable
  /-- "Integrity check failed: .env file hash does not match expected value." -/
  | integrityFailure
  /-- "TWITTER_USERNAME, TWITTER_PASSWORD, and TWITTER_EMAIL are required in the .env file." -/
  | missingFields
deriving Repr, DecidableEq

/-- The `.env` parser inside part_000's loadSecrets (lines 84-89):
`line.split('=')` destructured as `[key, value]`, so only the text
between the first and second `=` survives; no comment or quote
handling.  Later lines overwrite earlier ones (object assignment). -/
def distParseEnv (content : String) (name : String) : Option String :=
  (splitChar '\n' content.data).foldl
    (fun acc line =>
      let parts := splitChar '=' line
      match parts with
      | key :: value :: _ =>
        if key.isEmpty || value.isEmpty then acc
        else fun q => if q == String.mk (jsTrimL key) then some (String.mk (jsTrimL value)) else acc q
      | _ => acc)
    (fun _ => none)
    name

/-- Is the external-environment source complete
(`externalUsername && externalPassword && externalEmail`)? -/
def extComplete (env : Env) : Bool :=
  truthy env.twUsername && truthy env.twPassword && truthy env.twEmail

/-- The bundle built from the external environment variables. -/
def credsFromEnv (env : Env) : Credentials :=
  ⟨(env.twUsername).getD "", (env.twPassword).getD "", (env.twEmail).getD "",
   env.twApiKey, env.twApiSecretKey, env.twAccessToken, env.twAccessTokenSecret,
   env.proxyUrl⟩

/-- Environment scrubbing on the external-source path (lines 61-71):
the three mandatory values unconditionally, the four optional API
values only when currently truthy; PROXY_URL and ENV_FILE_HASH are
never overwritten. -/
def scrubExternal (env : Env) : Env :=
  { env with
    twUsername := some "[REDACTED]"
    twPassword := some "[REDACTED]"
    twEmail := some "[REDACTED]"
    twApiKey := if truthy env.twApiKey then some "[REDACTED]" else env.twApiKey
    twApiSecretKey := if truthy env.twApiSecretKey then some "[REDACTED]" else env.twApiSecretKey
    twAccessToken := if truthy env.twAccessToken then some "[REDACTED]" else env.twAccessToken
    twAccessTokenSecret :=
      if truthy env.twAccessTokenSecret then some "[REDACTED]" else env.twAccessTokenSecret }

/-- Are the mandatory fields all present in the parsed `.env` file? -/
def fileComplete (content : String) : Bool :=
  truthy (distParseEnv content "TWITTER_USERNAME")
    && truthy (distParseEnv content "TWITTER_PASSWORD")
    && truthy (distParseEnv content "TWITTER_EMAIL")

/-- The bundle built from the parsed `.env` file. -/
def credsFromFile (content : String) : Credentials :=
  ⟨(distParseEnv content "TWITTER_USERNAME").getD "",
   (distParseEnv content "TWITTER_PASSWORD").getD "",
   (distParseEnv content "TWITTER_EMAIL").getD "",
   distParseEnv content "TWITTER_API_KEY",
   distParseEnv content "TWITTER_API_SECRET_KEY",
   distParseEnv content "TWITTER_ACCESS_TOKEN",
   distParseEnv content "TWITTER_ACCESS_TOKEN_SECRET",
   distParseEnv content "PROXY_URL"⟩

/-- Environment scrubbing on the file path (lines 110-120): mandatory
values unconditionally; the optional process values are overwritten when
the FILE provided the corresponding key (`if (envVars.X)`). -/
def scrubFile (env : Env) (content : String) : Env :=
  { env with
    twUsername := some "[REDACTED]"
    twPassword := some "[REDACTED]"
    twEmail := some "[REDACTED]"
    twApiKey := if truthy (distParseEnv content "TWITTER_API_KEY")
      then some "[REDACTED]" else env.twApiKey
    twApiSecretKey := if truthy (distParseEnv content "TWITTER_API_SECRET_KEY")
      then some "[REDACTED]" else env.twApiSecretKey
    twAccessToken := if truthy (distParseEnv content "TWITTER_ACCESS_TOKEN")
      then some "[REDACTED]" else env.twAccessToken
    twAccessTokenSecret := if truthy (distParseEnv content "TWITTER_ACCESS_TOKEN_SECRET")
      then some "[REDACTED]" else env.twAccessTokenSecret }

/-- Does the optional integrity check pass?
`EXPECTED_ENV_HASH = process.env.ENV_FILE_HASH || null` is consulted and
compared against the sha256 hex digest of the raw file content; the
digest function is a parameter of the model. -/
def hashOk (hash : String → String) (env : Env) (content : String) : Bool :=
  !(truthy env.envFileHash) || hash content == env.envFileHash.getD ""

/-- `loadSecrets()` (part_000 lines 40-129).  Returns the outcome, the
store state and the process environment after the call. -/
def loadSecrets (hash : String → String) (env : Env) (file : Option String)
    (st : StoreState) : Except LoadErr Unit × StoreState × Env :=
  if st.secretLoaded then (.ok (), st, env)
  else if extComplete env then
    (.ok (), loadedState (credsFromEnv env), scrubExternal env)
  else
    match file with
    | none => (.error .fileUnreadable, st, env)
    | some content =>
      if !hashOk hash env content then (.error .integrityFailure, st, env)
      else if fileComplete content then
        (.ok (), loadedState (credsFromFile content), scrubFile env content)
      else (.error .missingFields, st, env)

/-- Look an optional-variable name up in the process environment. -/
def envLookup (env : Env) (name : String) : Option String :=
  if name == "TWITTER_API_KEY" then env.twApiKey
  else if name == "TWITTER_API_SECRET_KEY" then env.twApiSecretKey
  else if name == "TWITTER_ACCESS_TOKEN" then env.twAccessToken
  else if name == "TWITTER_ACCESS_TOKEN_SECRET" then env.twAccessTokenSecret
  else if name == "PROXY_URL" then env.proxyUrl
  else none

/-- The `optionalVars.filter(...)` loop of part_000's validateEnv: for
each variable not truthy in the process environment it calls
`getCredentials()` (destroying or failing on the store) and checks the
(lower-cased) name on the returned bundle. -/
def validateLoop (env : Env) : List String → StoreState →
    Except CredErr (List String) × StoreState
  | [], st => (.ok [], st)
  | v :: vs, st =>
    if truthy (envLookup env v) then validateLoop env vs st
    else
      match getCredentials st with
      | (.error e, st') => (.error e, st')
      | (.ok c, st') =>
        if truthy (credLookup c (jsLower v)) then validateLoop env vs st'
        else
          match validateLoop env vs st' with
          | (.ok missing, st2) => (.ok (v :: missing), st2)
          | err => err

/-- `validateEnv()` (part_000 lines 156-172). -/
def validateEnv (env : Env) (st : StoreState) : Except CredErr (List String) × StoreState :=
  if !(st.secretLoaded && st.secretBuffer.isSome) then (.error .unavailable, st)
  else
    validateLoop env
      ["TWITTER_API_KEY", "TWITTER_API_SECRET_KEY", "TWITTER_ACCESS_TOKEN",
       "TWITTER_ACCESS_TOKEN_SECRET", "PROXY_URL"] st

/-- `validateEnv()` of dist/config.js (lines 97-102): the read-only
variant — only the residency check, no bundle access. -/
def validateEnvDist (st : StoreState) : Except CredErr Unit × StoreState :=
  if !(st.secretLoaded && st.secretBuffer.isSome) then (.error .unavailable, st)
  else (.ok (), st)

/-- `cleanupCredentials()` (dist/config.js lines 104-117).  The
`zeroRaises` flag injects the "underlying zero/release step raises"
condition the catch block guards against; in that case the assignments
`secretBuffer = null; secretLoaded = false` inside the try are skipped
and only `logger.error` runs.  The function itself never throws. -/
def cleanupCredentials (zeroRaises : Bool) (st : StoreState) : StoreState × List String :=
  match st.secretBuffer with
  | none => (st, [])
  | some _ =>
    if zeroRaises then
      (st, [logLine .error [.vstr "Error clearing credentials: unexpected condition"]])
    else
      (⟨none, false⟩, [logLine .info [.vstr "Credentials cleared securely"]])

/-! ## The src/src/config.ts `.env` parser (loadEnv, lines 56-68) -/

/-- `value.trim().replace(/^["']|["']$/g, '')`: strip one leading and
one trailing quote character. -/
def stripQuotes (l : List Char) : List Char :=
  let l1 := match l with
    | c :: rest => if c == '"' || c == '\'' then rest else l
    | [] => []
  match l1.reverse with
  | c :: rest => if c == '"' || c == '\'' then rest.reverse else l1
  | [] => l1

/-- One line of the src/src/config.ts loadEnv parser: trim, skip blank
and `#`-prefixed lines, split on the FIRST `=` (the tail is rejoined
with `=`), strip surrounding quotes from the trimmed value; assignment
overwrites earlier bindings. -/
def loadEnvLine (acc : String → Option String) (line : List Char) : String → Option String :=
  let t := jsTrimL line
  if t.isEmpty || (match t with | c :: _ => c == '#' | [] => false) then acc
  else
    match splitChar '=' t with
    | key :: valueParts =>
      let value := intercalChar '=' valueParts
      if key.isEmpty || value.isEmpty then acc
      else fun q =>
        if q == String.mk (jsTrimL key)
        then some (String.mk (stripQuotes (jsTrimL value))) else acc q
    | [] => acc

/-- The loadEnv parser over the raw character content. -/
def loadEnvCore (content : List Char) : String → Option String :=
  (splitChar '\n' content).foldl loadEnvLine (fun _ => none)

/-- The parser of src/src/config.ts loadEnv (lines 56-68): line by
line, trimmed; `#`-prefixed and blank lines skipped; split on the first
`=`; quotes stripped.  Later lines overwrite earlier ones. -/
def loadEnvParse (content : String) (name : String) : Option String :=
  loadEnvCore content.data name

/-- A character that plays no special role for the `.env` parsers: not a
line break, separator, comment marker, quote, or whitespace.  Used to
state the parser theorems for benign keys and values. -/
def plainKVChar (c : Char) : Bool :=
  !(c == '\n' || c == '=' || c == '#' || c == '"' || c == '\'' || jsSpace c)

/-! # Theorems -/

/-! ## C10: non-string, non-object scalars pass through the sanitizer -/

/-- C10: for every argument that is neither a string nor an object
(numbers, booleans, null, undefined) `redactSensitive` returns it
unchanged, so `emit` writes such values verbatim to the diagnostic
stream — no pattern rule ever applies to a non-string scalar. -/
theorem spec_c10 (n : Int) (b : Bool) :
    redactSensitive (.vnum n) = .vnum n
      ∧ redactSensitive (.vbool b) = .vbool b
      ∧ redactSensitive .vnull = .vnull
      ∧ redactSensitive .vundef = .vundef
      ∧ logLine .info [.vnum n] = "[INFO] " ++ toString n ++ "\n"
      ∧ logLine .warn [.vbool b] = "[WARN] " ++ (if b then "true" else "false") ++ "\n"
      ∧ logLine .error [.vnull] = "[ERROR] null\n"
      ∧ logLine .info [.vundef] = "[INFO] undefined\n" := by
  refine ⟨?_, ?_, ?_, ?_, ?_, ?_, ?_, ?_⟩ <;>
    simp [redactSensitive, logLine, jsToString, levelTag, String.intercalate,
      String.intercalate.go, String.append_assoc]

/-! ## C3: source priority of loadSecrets -/

/-- C3: `load()` selects its source by fixed priority.  (1) When the
external environment holds all three mandatory values, the bundle is
built from the environment — for EVERY state of the local file, even a
complete distinct one.  (2) When the external set is incomplete but the
file parses to a complete mandatory set (and the optional integrity
check does not object), the bundle is built from the file's values.
(3/4) When neither source yields the complete mandatory set — file
unreadable, or file lacking a mandatory field — the load fails with the
corresponding CredentialLoadError and the store stays empty. -/
theorem spec_c3 (hash : String → String) (env : Env) :
    (extComplete env = true →
      ∀ file, loadSecrets hash env file emptyState
        = (.ok (), loadedState (credsFromEnv env), scrubExternal env))
    ∧ (∀ content, extComplete env = false → hashOk hash env content = true →
        fileComplete content = true →
        loadSecrets hash env (some content) emptyState
          = (.ok (), loadedState (credsFromFile content), scrubFile env content))
    ∧ (extComplete env = false →
        loadSecrets hash env none emptyState = (.error .fileUnreadable, emptyState, env))
    ∧ (∀ content, extComplete env = false → hashOk hash env content = true →
        fileComplete content = false →
        loadSecrets hash env (some content) emptyState
          = (.error .missingFields, emptyState, env)) := by
  refine ⟨?_, ?_, ?_, ?_⟩
  · intro hext file
    simp [loadSecrets, emptyState, hext]
  · intro content hext hhash hfile
    simp [loadSecrets, emptyState, hext, hhash, hfile]
  · intro hext
    simp [loadSecrets, emptyState, hext]
  · intro content hext hhash hfile
    simp [loadSecrets, emptyState, hext, hhash, hfile]

/-- Witness for C3 at concrete inputs: a complete external set wins over
a complete, distinct file; the same file set wins when the external set
misses the email; and with neither source complete the load fails. -/
theorem spec_c3_witness :
    loadSecrets (fun _ => "") ⟨some "eu", some "ep", some "ee", none, none, none, none, none, none⟩
        (some "TWITTER_USERNAME=fu\nTWITTER_PASSWORD=fp\nTWITTER_EMAIL=fe") emptyState
      = (.ok (),
         loadedState (credsFromEnv ⟨some "eu", some "ep", some "ee", none, none, none, none, none, none⟩),
         scrubExternal ⟨some "eu", some "ep", some "ee", none, none, none, none, none, none⟩)
    ∧ loadSecrets (fun _ => "") ⟨some "eu", some "ep", none, none, none, none, none, none, none⟩
        (some "TWITTER_USERNAME=fu\nTWITTER_PASSWORD=fp\nTWITTER_EMAIL=fe") emptyState
      = (.ok (),
         loadedState (credsFromFile "TWITTER_USERNAME=fu\nTWITTER_PASSWORD=fp\nTWITTER_EMAIL=fe"),
         scrubFile ⟨some "eu", some "ep", none, none, none, none, none, none, none⟩
           "TWITTER_USERNAME=fu\nTWITTER_PASSWORD=fp\nTWITTER_EMAIL=fe")
    ∧ loadSecrets (fun _ => "") ⟨some "eu", some "ep", none, none, none, none, none, none, none⟩
        none emptyState
      = (.error .fileUnreadable, emptyState, ⟨some "eu", some "ep", none, none, none, none, none, none, none⟩)
    ∧ loadSecrets (fun _ => "") ⟨some "eu", some "ep", none, none, none, none, none, none, none⟩
        (some "TWITTER_USERNAME=fu") emptyState
      = (.error .missingFields, emptyState, ⟨some "eu", some "ep", none, none, none, none, none, none, none⟩) :=
  ⟨(spec_c3 (fun _ => "") _).1 (by decide) _,
   (spec_c3 (fun _ => "") _).2.1 _ (by decide) (by decide) (by decide),
   (spec_c3 (fun _ => "") _).2.2.1 (by decide),
   (spec_c3 (fun _ => "") _).2.2.2 _ (by decide) (by decide) (by decide)⟩

/-! ## C4: integrity failure is distinguished and stores nothing -/

/-- C4: when ENV_FILE_HASH is configured and the computed digest of the
raw file content differs from it, the load fails with the integrity
error — even when every mandatory field is present in the file — the
error is distinct from the plain missing-field error, and the store
remains empty. -/
theorem spec_c4 (hash : String → String) (env : Env) (content : String) :
    extComplete env = false → truthy env.envFileHash = true →
    hash content ≠ env.envFileHash.getD "" →
    fileComplete content = true →
    loadSecrets hash env (some content) emptyState
        = (.error .integrityFailure, emptyState, env)
      ∧ LoadErr.integrityFailure ≠ LoadErr.missingFields
      ∧ LoadErr.integrityFailure ≠ LoadErr.fileUnreadable := by
  intro hext hcfg hne _hfile
  have hh : hashOk hash env content = false := by
    simp [hashOk, hcfg, hne]
  refine ⟨?_, by decide, by decide⟩
  simp [loadSecrets, emptyState, hext, hh]

/-- Witness for C4: a configured expected hash `HH` with computed digest
`XX` fails the load with the integrity error although the file carries
all three mandatory fields. -/
theorem spec_c4_witness :
    loadSecrets (fun _ => "XX") ⟨none, none, none, none, none, none, none, none, some "HH"⟩
        (some "TWITTER_USERNAME=fu\nTWITTER_PASSWORD=fp\nTWITTER_EMAIL=fe") emptyState
      = (.error .integrityFailure, emptyState,
         ⟨none, none, none, none, none, none, none, none, some "HH"⟩) :=
  (spec_c4 (fun _ => "XX") _ _ (by decide) (by decide) (by decide) (by decide)).1

/-! ## C6: environment scrubbing after an external-source load -/

/-- C6: after every successful load that used the external-environment
source, each mandatory credential value reads back as the fixed marker
(in particular TWITTER_PASSWORD), and each optional credential value
that held material is overwritten with the marker as well. -/
theorem spec_c6 (hash : String → String) (env : Env) (file : Option String) :
    extComplete env = true →
    ((loadSecrets hash env file emptyState).2.2.twPassword = some "[REDACTED]"
      ∧ (loadSecrets hash env file emptyState).2.2.twUsername = some "[REDACTED]"
      ∧ (loadSecrets hash env file emptyState).2.2.twEmail = some "[REDACTED]"
      ∧ (truthy env.twApiKey = true →
          (loadSecrets hash env file emptyState).2.2.twApiKey = some "[REDACTED]")
      ∧ (truthy env.twApiSecretKey = true →
          (loadSecrets hash env file emptyState).2.2.twApiSecretKey = some "[REDACTED]")
      ∧ (truthy env.twAccessToken = true →
          (loadSecrets hash env file emptyState).2.2.twAccessToken = some "[REDACTED]")
      ∧ (truthy env.twAccessTokenSecret = true →
          (loadSecrets hash env file emptyState).2.2.twAccessTokenSecret = some "[REDACTED]")) := by
  intro hext
  simp only [loadSecrets, emptyState, hext]
  refine ⟨by simp [scrubExternal], by simp [scrubExternal], by simp [scrubExternal],
    ?_, ?_, ?_, ?_⟩ <;> intro h <;> simp [scrubExternal, h]

/-- Witness for C6: a load from a full external set scrubs all seven
credential-bearing values. -/
theorem spec_c6_witness :
    (loadSecrets (fun _ => "") ⟨some "u", some "p", some "e", some "AK", some "AS", some "AT", some "TS", some "http://x", none⟩
        none emptyState).2.2.twPassword = some "[REDACTED]"
    ∧ (loadSecrets (fun _ => "") ⟨some "u", some "p", some "e", some "AK", some "AS", some "AT", some "TS", some "http://x", none⟩
        none emptyState).2.2.twApiKey = some "[REDACTED]" := by
  have h := spec_c6 (fun _ => "") ⟨some "u", some "p", some "e", some "AK", some "AS", some "AT", some "TS", some "http://x", none⟩ none (by decide)
  exact ⟨h.1, h.2.2.2.1 (by decide)⟩

/-! ## C1: single consumption — the code slips on non-ASCII bundles -/

/-- C1 (code bug): the claim "for every successful load() exactly one
subsequent retrieve() succeeds and returns the bundle" fails in the
code.  `sodium_malloc(credentialsJson.length)` sizes the region by
UTF-16 code units while `buf.write` stores UTF-8 bytes, so for the
successfully loaded external set below (password "péss") the very
first retrieve already fails: the stored JSON loses its closing brace
and `JSON.parse` throws.  The state reset still happens before the
parse, so the store is empty afterwards and a second retrieve fails
with the unavailable error. -/
theorem spec_c1 :
    loadSecrets (fun _ => "") ⟨some "user", some "péss", some "e@x.com", none, none, none, none, none, none⟩
        none emptyState
      = (.ok (),
         loadedState ⟨"user", "péss", "e@x.com", none, none, none, none, none⟩,
         scrubExternal ⟨some "user", some "péss", some "e@x.com", none, none, none, none, none, none⟩)
    ∧ getCredentials (loadedState ⟨"user", "péss", "e@x.com", none, none, none, none, none⟩)
      = (.error .parseFailed, emptyState)
    ∧ getCredentials emptyState = (.error .unavailable, emptyState) := by
  refine ⟨by decide, by decide, by decide⟩

/-! ## C8: store/retrieve round trip — broken by the same sizing slip -/

/-- C8 (code bug): the claimed round trip
"the bundle retrieve() decodes equals the bundle load() stored" fails:
for the bundle below (username "usér") the protected region is
allocated with the serialized string's UTF-16 length, one byte short of
its UTF-8 encoding, so the written region decodes to a JSON text
different from the serialized bundle and retrieve() cannot return the
bundle (JSON.parse throws). -/
theorem spec_c8 :
    utf8Decode (mkBuffer (encodeCredentials ⟨"usér", "pw", "e@x", none, none, none, none, none⟩))
      ≠ (encodeCredentials ⟨"usér", "pw", "e@x", none, none, none, none, none⟩).data
    ∧ (getCredentials (loadedState ⟨"usér", "pw", "e@x", none, none, none, none, none⟩)).1
      = .error .parseFailed
    ∧ utf16Len (encodeCredentials ⟨"usér", "pw", "e@x", none, none, none, none, none⟩)
      < ((encodeCredentials ⟨"usér", "pw", "e@x", none, none, none, none, none⟩).data.flatMap utf8Char).length := by
  refine ⟨by decide, by decide, by decide⟩

/-! ## C5: validateEnv is not read-only in part_000 -/

/-- C5 (code bug): the claim says validateEnv is read-only and at most
warns.  In part_000 the optional-variable filter calls
`getCredentials()` for every optional variable that is not truthy in
the process environment.  With one optional variable missing
(PROXY_URL) the call succeeds but consumes the resident bundle, so the
store is empty afterwards and a subsequent retrieve fails; with two
missing the second call throws out of validateEnv. -/
theorem spec_c5 :
    validateEnv ⟨some "[REDACTED]", some "[REDACTED]", some "[REDACTED]", some "[REDACTED]",
        some "[REDACTED]", some "[REDACTED]", some "[REDACTED]", none, none⟩
        (loadedState ⟨"vu", "vp", "ve@x", none, none, none, none, none⟩)
      = (.ok ["PROXY_URL"], emptyState)
    ∧ loadedState ⟨"vu", "vp", "ve@x", none, none, none, none, none⟩ ≠ emptyState
    ∧ (getCredentials emptyState).1 = .error .unavailable
    ∧ validateEnv ⟨some "[REDACTED]", some "[REDACTED]", some "[REDACTED]", some "[REDACTED]",
        some "[REDACTED]", some "[REDACTED]", none, none, none⟩
        (loadedState ⟨"vu", "vp", "ve@x", none, none, none, none, none⟩)
      = (.error .unavailable, emptyState) := by
  refine ⟨by decide, by decide, by decide, by decide⟩

/-! ## C7: clear() — normal paths hold, the exception path does not
complete the reset -/

/-- C7 counterexample: on the very path the claim quantifies over
("even if the underlying zero/release step raises an unexpected
condition ... still completes the logical reset, so a retrieve() after
clear() fails"), the catch block of cleanupCredentials skips the
`secretBuffer = null; secretLoaded = false` assignments: the state is
unchanged and a retrieve() after such a clear() still SUCCEEDS. -/
theorem spec_c7_cex :
    (cleanupCredentials true (loadedState ⟨"cu", "cp", "ce@x", none, none, none, none, none⟩)).1
      = loadedState ⟨"cu", "cp", "ce@x", none, none, none, none, none⟩
    ∧ (getCredentials
        (cleanupCredentials true (loadedState ⟨"cu", "cp", "ce@x", none, none, none, none, none⟩)).1).1
      = .ok ⟨"cu", "cp", "ce@x", none, none, none, none, none⟩ := by
  refine ⟨by decide, by decide⟩

/-- C7 (amended): clear() zeroes and releases the region and resets the
state whenever the underlying zero/release step does not raise; it is a
no-op on an empty store; it never throws (it is a total function into
states); but when the underlying step raises it only logs — as an
error, not a warning — and leaves the state unchanged, so the logical
reset is NOT completed and a retrieve() after such a clear() does not
fail. -/
theorem spec_c7 (st : StoreState) (b : List Nat) (z : Bool) :
    ((cleanupCredentials false st).1.secretBuffer = none
      ∧ (getCredentials (cleanupCredentials false st).1).1 = .error .unavailable)
    ∧ (st.secretBuffer = none → cleanupCredentials z st = (st, []))
    ∧ (st.secretBuffer = some b → (cleanupCredentials true st).1 = st
        ∧ (cleanupCredentials true st).2
          = [logLine .error [.vstr "Error clearing credentials: unexpected condition"]]) := by
  refine ⟨⟨?_, ?_⟩, ?_, ?_⟩
  · cases h : st.secretBuffer <;> simp [cleanupCredentials, h]
  · cases h : st.secretBuffer <;> simp [cleanupCredentials, h, getCredentials]
  · intro h; simp [cleanupCredentials, h]
  · intro h; simp [cleanupCredentials, h]

/-- Witness for C7 at concrete states: a loaded store is reset on the
normal path (and retrieve then fails), the empty store is untouched,
and the raising path leaves a loaded store loaded. -/
theorem spec_c7_witness :
    ((cleanupCredentials false (loadedState ⟨"wu", "wp", "we@x", none, none, none, none, none⟩)).1.secretBuffer = none
      ∧ (getCredentials (cleanupCredentials false (loadedState ⟨"wu", "wp", "we@x", none, none, none, none, none⟩)).1).1
        = .error .unavailable)
    ∧ cleanupCredentials true emptyState = (emptyState, [])
    ∧ (cleanupCredentials true (loadedState ⟨"wu", "wp", "we@x", none, none, none, none, none⟩)).1
      = loadedState ⟨"wu", "wp", "we@x", none, none, none, none, none⟩ :=
  ⟨(spec_c7 (loadedState ⟨"wu", "wp", "we@x", none, none, none, none, none⟩) [] true).1,
   (spec_c7 emptyState [] true).2.1 (by decide),
   ((spec_c7 (loadedState ⟨"wu", "wp", "we@x", none, none, none, none, none⟩)
      (mkBuffer (encodeCredentials ⟨"wu", "wp", "we@x", none, none, none, none, none⟩)) true).2.2
      (by decide)).1⟩

/-! ## Supporting lemmas for the `.env` parser claims -/

theorem dropWhile_all_false {p : Char → Bool} (l : List Char)
    (h : ∀ x ∈ l, p x = false) : List.dropWhile p l = l := by
  cases l with
  | nil => rfl
  | cons x xs => simp [List.dropWhile_cons, h x (by simp)]

theorem jsTrimL_id (l : List Char) (h : ∀ x ∈ l, jsSpace x = false) :
    jsTrimL l = l := by
  unfold jsTrimL
  rw [dropWhile_all_false l h,
    dropWhile_all_false l.reverse (fun x hx => h x (List.mem_reverse.mp hx)),
    List.reverse_reverse]

theorem jsTrimL_all_space (l : List Char) (h : ∀ x ∈ l, jsSpace x = true) :
    jsTrimL l = [] := by
  unfold jsTrimL
  rw [List.dropWhile_eq_nil_iff.mpr h]
  simp

theorem splitChar_ne_nil (c : Char) (l : List Char) : splitChar c l ≠ [] := by
  induction l with
  | nil => simp [splitChar]
  | cons x xs ih =>
    cases h : splitChar c xs with
    | nil => exact absurd h ih
    | cons p ps => by_cases hx : (x == c) = true <;> simp [splitChar, h, hx]

theorem splitChar_not_mem (c : Char) (l : List Char) (h : c ∉ l) :
    splitChar c l = [l] := by
  induction l with
  | nil => simp [splitChar]
  | cons x xs ih =>
    have hx : (x == c) = false := by
      simp only [beq_eq_false_iff_ne]
      intro he; exact h (he ▸ List.mem_cons_self x xs)
    have ih' := ih (fun hm => h (List.mem_cons_of_mem x hm))
    simp [splitChar, ih', hx]

theorem splitChar_sep (c : Char) (a b : List Char) (h : c ∉ a) :
    splitChar c (a ++ c :: b) = a :: splitChar c b := by
  induction a with
  | nil =>
    cases hb : splitChar c b with
    | nil => exact absurd hb (splitChar_ne_nil c b)
    | cons p ps => simp [splitChar, hb]
  | cons x a' ih =>
    have hx : (x == c) = false := by
      simp only [beq_eq_false_iff_ne]
      intro he; exact h (he ▸ List.mem_cons_self x a')
    have ih' := ih (fun hm => h (List.mem_cons_of_mem x hm))
    simp only [List.cons_append, splitChar, List.append_eq]
    rw [ih']
    simp [hx]

theorem intercal_split (c : Char) (l : List Char) :
    intercalChar c (splitChar c l) = l := by
  induction l with
  | nil => rfl
  | cons x xs ih =>
    cases h : splitChar c xs with
    | nil => exact absurd h (splitChar_ne_nil c xs)
    | cons p ps =>
      rw [h] at ih
      by_cases hx : (x == c) = true
      · have hxc : x = c := beq_iff_eq.mp hx
        simp only [splitChar, h, hx, if_pos]
        show intercalChar c ([] :: p :: ps) = x :: xs
        simp only [intercalChar, List.nil_append]
        rw [ih, hxc]
      · simp only [splitChar, h, hx]
        show intercalChar c ((x :: p) :: ps) = x :: xs
        cases ps with
        | nil =>
          simp only [intercalChar] at ih ⊢
          rw [ih]
        | cons q qs =>
          simp only [intercalChar] at ih ⊢
          rw [← ih]
          simp

theorem splitChar_all {p : Char → Bool} (c : Char) (l : List Char)
    (h : ∀ x ∈ l, p x = true) :
    ∀ piece ∈ splitChar c l, ∀ x ∈ piece, p x = true := by
  induction l with
  | nil =>
    intro piece hp x hx
    simp [splitChar] at hp
    subst hp
    simp at hx
  | cons y ys ih =>
    intro piece hp x hx
    have hy : p y = true := h y (by simp)
    have hys : ∀ x ∈ ys, p x = true := fun x hx => h x (List.mem_cons_of_mem y hx)
    cases hs : splitChar c ys with
    | nil => exact absurd hs (splitChar_ne_nil c ys)
    | cons q qs =>
      by_cases hyc : (y == c) = true
      · rw [splitChar, hs] at hp
        simp only [hyc, if_pos] at hp
        rcases List.mem_cons.mp hp with h1 | h2
        · subst h1; simp at hx
        · exact ih hys piece (hs ▸ h2) x hx
      · rw [splitChar, hs] at hp
        simp only [hyc] at hp
        simp only [if_neg, Bool.false_eq_true, not_false_iff] at hp
        rcases List.mem_cons.mp hp with h1 | h2
        · subst h1
          rcases List.mem_cons.mp hx with h3 | h4
          · subst h3; exact hy
          · exact ih hys q (hs ▸ List.mem_cons_self q qs) x h4
        · exact ih hys piece (hs ▸ List.mem_cons_of_mem q h2) x hx

theorem stripQuotes_id (l : List Char)
    (h : ∀ x ∈ l, (x == '"') = false ∧ (x == '\'') = false) :
    stripQuotes l = l := by
  cases l with
  | nil => rfl
  | cons x xs =>
    have hx := h x (by simp)
    unfold stripQuotes
    simp only [hx.1, hx.2, Bool.or_self, Bool.false_eq_true, if_false]
    cases hr : (x :: xs).reverse with
    | nil => simp at hr
    | cons d ds =>
      have hd : d ∈ x :: xs := by
        rw [← List.mem_reverse, hr]; simp
      have hdq := h d hd
      simp only [hdq.1, hdq.2, Bool.or_self, Bool.false_eq_true, if_false]

theorem dropWhile_append_last {p : Char → Bool} (c : Char) (a : List Char)
    (h : p c = false) :
    List.dropWhile p (a ++ [c]) = List.dropWhile p a ++ [c] := by
  induction a with
  | nil => simp [List.dropWhile_cons, h]
  | cons x a' ih =>
    cases hp : p x <;> simp [List.dropWhile_cons, hp, ih]

theorem foldl_skip {α β : Type} (f : β → α → β) (l : List α) (b : β)
    (h : ∀ a ∈ l, ∀ acc, f acc a = acc) : l.foldl f b = b := by
  induction l generalizing b with
  | nil => rfl
  | cons x xs ih =>
    rw [List.foldl_cons, h x (by simp)]
    exact ih b (fun a ha acc => h a (List.mem_cons_of_mem x ha) acc)

theorem plainKV_spec (x : Char) (h : plainKVChar x = true) :
    (x == '\n') = false ∧ (x == '=') = false ∧ (x == '#') = false
      ∧ (x == '"') = false ∧ (x == '\'') = false ∧ jsSpace x = false := by
  simp only [plainKVChar, Bool.not_eq_true', Bool.or_eq_false_iff] at h
  exact ⟨h.1.1.1.1.1, h.1.1.1.1.2, h.1.1.1.2, h.1.1.2, h.1.2, h.2⟩

/-! ## C9: the secret-file parser -/

/-- C9 counterexample: the Secret Store's own parser (part_000's
loadSecrets) destructures `line.split('=')` as `[key, value]`, so for
the line `KEY=V1=V2` the stored value is `V1`, not `V1=V2` — the text
after the second `=` is silently dropped. -/
theorem spec_c9_cex :
    distParseEnv "KEY=V1=V2" "KEY" = some "V1"
      ∧ ¬ distParseEnv "KEY=V1=V2" "KEY" = some "V1=V2"
      ∧ distParseEnv "#COMMENTED=x" "#COMMENTED" = some "x"
      ∧ loadEnvParse "KEY=V1=V2" "KEY" = some "V1=V2" := by
  refine ⟨by decide, by decide, by decide, by decide⟩

/-- C9 (amended): the claimed behaviour — line-by-line processing,
`#`-prefixed and blank lines ignored, split only on the first `=` so
that `=` characters inside the value are preserved (`KEY=V1=V2` stores
`V1=V2`), surrounding quotes stripped — is the behaviour of the
src/src/config.ts loadEnv parser, not of the Secret Store's parser
(which drops everything after the second `=`, keeps `#` lines, and
never strips quotes; see the counterexample). -/
theorem spec_c9 (k v1 v2 com bl : List Char) (q q2 : String) :
    (k ≠ [] → v1 ≠ [] →
      (∀ x ∈ k, plainKVChar x = true) → (∀ x ∈ v1, plainKVChar x = true) →
      (∀ x ∈ v2, plainKVChar x = true) →
      loadEnvParse (String.mk (k ++ ('=' :: (v1 ++ ('=' :: v2))))) (String.mk k)
        = some (String.mk (v1 ++ ('=' :: v2))))
    ∧ ('\n' ∉ com → loadEnvParse (String.mk ('#' :: com)) q = none)
    ∧ ((∀ x ∈ bl, jsSpace x = true) → loadEnvParse (String.mk bl) q2 = none)
    ∧ (k ≠ [] →
      (∀ x ∈ k, plainKVChar x = true) → (∀ x ∈ v1, plainKVChar x = true) →
      loadEnvParse (String.mk (k ++ ('=' :: ('"' :: (v1 ++ ['"']))))) (String.mk k)
        = some (String.mk v1)) := by
  refine ⟨?parta, ?partb, ?partc, ?partd⟩
  case parta =>
    intro hk hv1 hka hv1a hv2a
    have hnot : '\n' ∉ (k ++ ('=' :: (v1 ++ ('=' :: v2)))) := by
      intro hm
      rcases List.mem_append.mp hm with h1 | h2
      · have hc := (plainKV_spec _ (hka _ h1)).1; simp at hc
      · rcases List.mem_cons.mp h2 with h3 | h4
        · exact absurd h3 (by decide)
        · rcases List.mem_append.mp h4 with h5 | h6
          · have hc := (plainKV_spec _ (hv1a _ h5)).1; simp at hc
          · rcases List.mem_cons.mp h6 with h7 | h8
            · exact absurd h7 (by decide)
            · have hc := (plainKV_spec _ (hv2a _ h8)).1; simp at hc
    have hsplit : splitChar '\n' (k ++ ('=' :: (v1 ++ ('=' :: v2))))
        = [k ++ ('=' :: (v1 ++ ('=' :: v2)))] := splitChar_not_mem _ _ hnot
    have hnospace : ∀ x ∈ (k ++ ('=' :: (v1 ++ ('=' :: v2)))), jsSpace x = false := by
      intro x hm
      rcases List.mem_append.mp hm with h1 | h2
      · exact (plainKV_spec _ (hka _ h1)).2.2.2.2.2
      · rcases List.mem_cons.mp h2 with h3 | h4
        · subst h3; decide
        · rcases List.mem_append.mp h4 with h5 | h6
          · exact (plainKV_spec _ (hv1a _ h5)).2.2.2.2.2
          · rcases List.mem_cons.mp h6 with h7 | h8
            · subst h7; decide
            · exact (plainKV_spec _ (hv2a _ h8)).2.2.2.2.2
    have htrim : jsTrimL (k ++ ('=' :: (v1 ++ ('=' :: v2))))
        = k ++ ('=' :: (v1 ++ ('=' :: v2))) := jsTrimL_id _ hnospace
    have hmemk : '=' ∉ k := by
      intro hm
      have hc := (plainKV_spec _ (hka _ hm)).2.1; simp at hc
    have hmemv1 : '=' ∉ v1 := by
      intro hm
      have hc := (plainKV_spec _ (hv1a _ hm)).2.1; simp at hc
    have hsplitEq : splitChar '=' (k ++ ('=' :: (v1 ++ ('=' :: v2))))
        = k :: v1 :: splitChar '=' v2 := by
      rw [splitChar_sep _ _ _ hmemk, splitChar_sep _ _ _ hmemv1]
    have hval : intercalChar '=' (v1 :: splitChar '=' v2) = v1 ++ ('=' :: v2) := by
      cases hs : splitChar '=' v2 with
      | nil => exact absurd hs (splitChar_ne_nil _ _)
      | cons q2 qs2 =>
        simp only [intercalChar]
        rw [← hs, intercal_split]
    obtain ⟨kc, k', hkc⟩ : ∃ c t, k = c :: t := by
      cases k with
      | nil => exact absurd rfl hk
      | cons a b => exact ⟨a, b, rfl⟩
    obtain ⟨vc, v1', hvc⟩ : ∃ c t, v1 = c :: t := by
      cases v1 with
      | nil => exact absurd rfl hv1
      | cons a b => exact ⟨a, b, rfl⟩
    have hkhash : (kc == '#') = false :=
      (plainKV_spec kc (hka kc (by rw [hkc]; simp))).2.2.1
    have htrimk : jsTrimL k = k :=
      jsTrimL_id _ (fun x hx => (plainKV_spec x (hka x hx)).2.2.2.2.2)
    have hnospaceval : ∀ x ∈ (v1 ++ ('=' :: v2)), jsSpace x = false := by
      intro x hm
      rcases List.mem_append.mp hm with h5 | h6
      · exact (plainKV_spec _ (hv1a _ h5)).2.2.2.2.2
      · rcases List.mem_cons.mp h6 with h7 | h8
        · subst h7; decide
        · exact (plainKV_spec _ (hv2a _ h8)).2.2.2.2.2
    have htrimval : jsTrimL (v1 ++ ('=' :: v2)) = v1 ++ ('=' :: v2) := jsTrimL_id _ hnospaceval
    have hstrip : stripQuotes (v1 ++ ('=' :: v2)) = v1 ++ ('=' :: v2) := by
      apply stripQuotes_id
      intro x hm
      rcases List.mem_append.mp hm with h5 | h6
      · exact ⟨(plainKV_spec _ (hv1a _ h5)).2.2.2.1, (plainKV_spec _ (hv1a _ h5)).2.2.2.2.1⟩
      · rcases List.mem_cons.mp h6 with h7 | h8
        · subst h7; exact ⟨by decide, by decide⟩
        · exact ⟨(plainKV_spec _ (hv2a _ h8)).2.2.2.1, (plainKV_spec _ (hv2a _ h8)).2.2.2.2.1⟩
    have hheadfalse :
        (match (k ++ ('=' :: (v1 ++ ('=' :: v2)))) with
          | c :: _ => c == '#' | [] => false) = false := by
      rw [hkc]; simpa using hkhash
    have hempty1 : (k ++ ('=' :: (v1 ++ ('=' :: v2)))).isEmpty = false := by
      rw [hkc]; simp
    have hkempty : k.isEmpty = false := by rw [hkc]; simp
    have hvalempty : (v1 ++ ('=' :: v2)).isEmpty = false := by rw [hvc]; simp
    show loadEnvCore (k ++ ('=' :: (v1 ++ ('=' :: v2)))) (String.mk k)
        = some (String.mk (v1 ++ ('=' :: v2)))
    unfold loadEnvCore
    rw [hsplit, List.foldl_cons, List.foldl_nil]
    unfold loadEnvLine
    simp only [htrim, hheadfalse, hempty1, Bool.or_self, Bool.false_eq_true, if_false,
      hsplitEq, hval, hkempty, hvalempty, htrimk, htrimval, hstrip, beq_self_eq_true, if_true]
  case partb =>
    intro hcom
    have hnot : '\n' ∉ ('#' :: com) := by
      intro hm
      rcases List.mem_cons.mp hm with h1 | h2
      · exact absurd h1 (by decide)
      · exact hcom h2
    have hsplit : splitChar '\n' ('#' :: com) = ['#' :: com] := splitChar_not_mem _ _ hnot
    have hsp : jsSpace '#' = false := by decide
    have htrimform : jsTrimL ('#' :: com)
        = '#' :: (com.reverse.dropWhile jsSpace).reverse := by
      unfold jsTrimL
      rw [List.dropWhile_cons]
      simp only [hsp, Bool.false_eq_true, if_false]
      rw [List.reverse_cons, dropWhile_append_last _ _ hsp, List.reverse_append]
      simp
    show loadEnvCore ('#' :: com) q = none
    unfold loadEnvCore
    rw [hsplit, List.foldl_cons, List.foldl_nil]
    unfold loadEnvLine
    rw [htrimform]
    simp
  case partc =>
    intro hbl
    show loadEnvCore bl q2 = none
    unfold loadEnvCore
    have hstep : ∀ piece ∈ splitChar '\n' bl, ∀ acc, loadEnvLine acc piece = acc := by
      intro piece hmem acc
      have hall : ∀ x ∈ piece, jsSpace x = true := splitChar_all '\n' bl hbl piece hmem
      unfold loadEnvLine
      rw [jsTrimL_all_space piece hall]
      simp
    rw [foldl_skip _ _ _ hstep]
  case partd =>
    intro hk hka hv1a
    have hnot : '\n' ∉ (k ++ ('=' :: ('"' :: (v1 ++ ['"'])))) := by
      intro hm
      rcases List.mem_append.mp hm with h1 | h2
      · have hc := (plainKV_spec _ (hka _ h1)).1; simp at hc
      · rcases List.mem_cons.mp h2 with h3 | h4
        · exact absurd h3 (by decide)
        · rcases List.mem_cons.mp h4 with h5 | h6
          · exact absurd h5 (by decide)
          · rcases List.mem_append.mp h6 with h7 | h8
            · have hc := (plainKV_spec _ (hv1a _ h7)).1; simp at hc
            · rcases List.mem_cons.mp h8 with h9 | h10
              · exact absurd h9 (by decide)
              · simp at h10
    have hsplit : splitChar '\n' (k ++ ('=' :: ('"' :: (v1 ++ ['"']))))
        = [k ++ ('=' :: ('"' :: (v1 ++ ['"'])))] := splitChar_not_mem _ _ hnot
    have hnospace : ∀ x ∈ (k ++ ('=' :: ('"' :: (v1 ++ ['"'])))), jsSpace x = false := by
      intro x hm
      rcases List.mem_append.mp hm with h1 | h2
      · exact (plainKV_spec _ (hka _ h1)).2.2.2.2.2
      · rcases List.mem_cons.mp h2 with h3 | h4
        · subst h3; decide
        · rcases List.mem_cons.mp h4 with h5 | h6
          · subst h5; decide
          · rcases List.mem_append.mp h6 with h7 | h8
            · exact (plainKV_spec _ (hv1a _ h7)).2.2.2.2.2
            · rcases List.mem_cons.mp h8 with h9 | h10
              · subst h9; decide
              · simp at h10
    have htrim : jsTrimL (k ++ ('=' :: ('"' :: (v1 ++ ['"']))))
        = k ++ ('=' :: ('"' :: (v1 ++ ['"']))) := jsTrimL_id _ hnospace
    have hmemk : '=' ∉ k := by
      intro hm
      have hc := (plainKV_spec _ (hka _ hm)).2.1; simp at hc
    have hmemrest : '=' ∉ ('"' :: (v1 ++ ['"'])) := by
      intro hm
      rcases List.mem_cons.mp hm with h1 | h2
      · exact absurd h1 (by decide)
      · rcases List.mem_append.mp h2 with h3 | h4
        · have hc := (plainKV_spec _ (hv1a _ h3)).2.1; simp at hc
        · rcases List.mem_cons.mp h4 with h5 | h6
          · exact absurd h5 (by decide)
          · simp at h6
    have hsplitEq : splitChar '=' (k ++ ('=' :: ('"' :: (v1 ++ ['"']))))
        = k :: [('"' :: (v1 ++ ['"']))] := by
      rw [splitChar_sep _ _ _ hmemk, splitChar_not_mem _ _ hmemrest]
    have hval : intercalChar '=' [('"' :: (v1 ++ ['"']))] = '"' :: (v1 ++ ['"']) := by
      simp [intercalChar]
    obtain ⟨kc, k', hkc⟩ : ∃ c t, k = c :: t := by
      cases k with
      | nil => exact absurd rfl hk
      | cons a b => exact ⟨a, b, rfl⟩
    have hkhash : (kc == '#') = false :=
      (plainKV_spec kc (hka kc (by rw [hkc]; simp))).2.2.1
    have htrimk : jsTrimL k = k :=
      jsTrimL_id _ (fun x hx => (plainKV_spec x (hka x hx)).2.2.2.2.2)
    have htrimrest : jsTrimL ('"' :: (v1 ++ ['"'])) = '"' :: (v1 ++ ['"']) := by
      apply jsTrimL_id
      intro x hm
      rcases List.mem_cons.mp hm with h1 | h2
      · subst h1; decide
      · rcases List.mem_append.mp h2 with h3 | h4
        · exact (plainKV_spec _ (hv1a _ h3)).2.2.2.2.2
        · rcases List.mem_cons.mp h4 with h5 | h6
          · subst h5; decide
          · simp at h6
    have hstriprest : stripQuotes ('"' :: (v1 ++ ['"'])) = v1 := by
      unfold stripQuotes
      simp [List.reverse_append]
    have hheadfalse :
        (match (k ++ ('=' :: ('"' :: (v1 ++ ['"'])))) with
          | c :: _ => c == '#' | [] => false) = false := by
      rw [hkc]; simpa using hkhash
    have hempty1 : (k ++ ('=' :: ('"' :: (v1 ++ ['"'])))).isEmpty = false := by
      rw [hkc]; simp
    have hkempty : k.isEmpty = false := by rw [hkc]; simp
    show loadEnvCore (k ++ ('=' :: ('"' :: (v1 ++ ['"'])))) (String.mk k)
        = some (String.mk v1)
    unfold loadEnvCore
    rw [hsplit, List.foldl_cons, List.foldl_nil]
    unfold loadEnvLine
    simp only [htrim, hheadfalse, hempty1, Bool.or_self, Bool.false_eq_true, if_false,
      hsplitEq, hval, hkempty, htrimk, htrimrest, hstriprest, beq_self_eq_true, if_true,
      List.isEmpty_cons]

/-- Witness for C9 at concrete lines: `KEY=V1=V2` stores `V1=V2`, a
`#`-prefixed line and a blank line store nothing, and `KEY="V1"` stores
the unquoted `V1`. -/
theorem spec_c9_witness :
    loadEnvParse (String.mk (['K', 'E', 'Y'] ++ ('=' :: (['V', '1'] ++ ('=' :: ['V', '2'])))))
        (String.mk ['K', 'E', 'Y'])
      = some (String.mk (['V', '1'] ++ ('=' :: ['V', '2'])))
    ∧ loadEnvParse (String.mk ('#' :: ['n', 'o', 't', 'e'])) "KEY" = none
    ∧ loadEnvParse (String.mk [' ', '\t']) "KEY" = none
    ∧ loadEnvParse (String.mk (['K', 'E', 'Y'] ++ ('=' :: ('"' :: (['V', '1'] ++ ['"'])))))
        (String.mk ['K', 'E', 'Y'])
      = some (String.mk ['V', '1']) :=
  ⟨(spec_c9 ['K', 'E', 'Y'] ['V', '1'] ['V', '2'] [] [] "x" "x").1
      (by decide) (by decide) (by decide) (by decide) (by decide),
   (spec_c9 [] [] [] ['n', 'o', 't', 'e'] [] "KEY" "x").2.1 (by decide),
   (spec_c9 [] [] [] [] [' ', '\t'] "x" "KEY").2.2.1 (by decide),
   (spec_c9 ['K', 'E', 'Y'] ['V', '1'] [] [] [] "x" "x").2.2.2
      (by decide) (by decide) (by decide)⟩

/-! ## Supporting lemmas for the redaction claims -/

theorem takeWhile_len_le {p : Char → Bool} : ∀ l : List Char, (List.takeWhile p l).length ≤ l.length := by
  intro l
  induction l with
  | nil => simp
  | cons x xs ih =>
    rw [List.takeWhile_cons]
    cases hp : p x
    · simp
    · simp only [if_true, List.length_cons]
      omega

theorem takeWhile_all {p : Char → Bool} (l : List Char) (h : ∀ x ∈ l, p x = true) :
    List.takeWhile p l = l := by
  induction l with
  | nil => rfl
  | cons x xs ih =>
    rw [List.takeWhile_cons, h x (by simp)]
    simp [ih (fun x hx => h x (List.mem_cons_of_mem _ hx))]

theorem takeWhile_append_all {p : Char → Bool} (a b : List Char) (h : ∀ x ∈ a, p x = true) :
    List.takeWhile p (a ++ b) = a ++ List.takeWhile p b := by
  induction a with
  | nil => simp
  | cons x a' ih =>
    rw [List.cons_append, List.takeWhile_cons, h x (by simp)]
    simp [ih (fun x hx => h x (List.mem_cons_of_mem _ hx))]

theorem pass1Go_id : ∀ (fuel : Nat) (l : List Char), l.length < 64 → pass1Go fuel l = l := by
  intro fuel
  induction fuel with
  | zero => intro l _; rfl
  | succ f ih =>
    intro l hlen
    cases l with
    | nil => rfl
    | cons c rest =>
      have hlt : (List.take 64 (c :: rest)).length ≠ 64 := by
        rw [List.length_take]
        omega
      rw [pass1Go]
      simp only [hlt, beq_iff_eq, if_neg, Bool.and_eq_true, not_and]
      rw [if_neg]
      · rw [ih rest (by simp at hlen ⊢; omega)]
      · intro hc
        exact hlt (by simpa using hc.1)

theorem pass1_id (l : List Char) (h : l.length < 64) : pass1 l = l :=
  pass1Go_id l.length l h

theorem pass2Go_id31 : ∀ (fuel : Nat) (l : List Char), l.length ≤ 31 → pass2Go fuel l = l := by
  intro fuel
  induction fuel with
  | zero => intro l _; rfl
  | succ f ih =>
    intro l hlen
    cases l with
    | nil => rfl
    | cons c rest =>
      have hrun : ¬ 32 ≤ (List.takeWhile runChar (c :: rest)).length := by
        have := takeWhile_len_le (p := runChar) (c :: rest)
        omega
      rw [pass2Go, if_neg hrun, ih rest (by simp at hlen ⊢; omega)]

theorem pass2Go_through : ∀ (k : List Char) (fuel : Nat) (v : List Char),
    (∀ x ∈ k, runChar x = true) → k.length < 32 → k.length + 1 ≤ fuel →
    pass2Go fuel (k ++ '=' :: v) = k ++ '=' :: pass2Go (fuel - (k.length + 1)) v := by
  intro k
  induction k with
  | nil =>
    intro fuel v _ _ hfuel
    cases fuel with
    | zero => omega
    | succ f =>
      have hrun : ¬ 32 ≤ (List.takeWhile runChar ('=' :: v)).length := by
        rw [List.takeWhile_cons]
        have : runChar '=' = false := by decide
        simp [this]
      rw [List.nil_append, pass2Go, if_neg hrun]
      simp
  | cons c k' ih =>
    intro fuel v hall hlen hfuel
    cases fuel with
    | zero => omega
    | succ f =>
      have hcons : (c :: k') ++ '=' :: v = c :: (k' ++ '=' :: v) := by simp
      have hrun : List.takeWhile runChar (c :: (k' ++ '=' :: v)) = c :: k' := by
        have h2 := takeWhile_append_all (c :: k') ('=' :: v) hall
        rw [show List.takeWhile runChar ('=' :: v) = [] from by
          rw [List.takeWhile_cons]; simp [show runChar '=' = false from by decide]] at h2
        simpa using h2
      have hlt : ¬ 32 ≤ (List.takeWhile runChar (c :: (k' ++ '=' :: v))).length := by
        rw [hrun]
        simp at hlen ⊢
        omega
      have hlen' : k'.length < 32 := by
        simp only [List.length_cons] at hlen; omega
      have hfuel' : k'.length + 1 ≤ f := by
        simp only [List.length_cons] at hfuel; omega
      rw [hcons, pass2Go, if_neg hlt]
      rw [ih f v (fun x hx => hall x (List.mem_cons_of_mem _ hx)) hlen' hfuel']
      simp only [List.cons_append, List.length_cons]
      have harith : f - (k'.length + 1) = f + 1 - (k'.length + 1 + 1) := by omega
      rw [← harith]

theorem isPrefixL_self_append : ∀ (w r : List Char), isPrefixL w (w ++ r) = true := by
  intro w r
  induction w with
  | nil => rfl
  | cons x xs ih => simp [isPrefixL, ih]

theorem isPrefixL_take_of_append : ∀ (a b r : List Char),
    isPrefixL a (b ++ r) = true → isPrefixL (a.take b.length) b = true := by
  intro a
  induction a with
  | nil => intro b r _; cases b <;> simp [isPrefixL]
  | cons x a' ih =>
    intro b r h
    cases b with
    | nil => simp [isPrefixL]
    | cons y b' =>
      rw [List.cons_append, isPrefixL] at h
      have h1 : (x == y) = true := by
        cases hxy : (x == y)
        · rw [hxy] at h; simp at h
        · rfl
      have h2 : isPrefixL a' (b' ++ r) = true := by
        rw [h1] at h; simpa using h
      simp only [List.length_cons, List.take_succ_cons, isPrefixL, h1, Bool.true_and]
      exact ih b' r h2

theorem isPrefixL_append_false (a b r : List Char)
    (h : isPrefixL (a.take b.length) b = false) : isPrefixL a (b ++ r) = false := by
  cases hp : isPrefixL a (b ++ r) with
  | false => rfl
  | true => exact absurd (isPrefixL_take_of_append a b r hp) (by simp [h])

theorem kw_no_cross (w w' : List Char) (hw : w ∈ kwList) (hw' : w' ∈ kwList)
    (hne : w' ≠ w) (r : List Char) : isPrefixL w' (w ++ r) = false := by
  fin_cases hw <;> fin_cases hw' <;>
    first
      | exact absurd rfl hne
      | (apply isPrefixL_append_false; decide)

theorem lowerChar_cases (c d : Char) (h : lowerChar c = d) :
    c = d ∨ (65 ≤ c.toNat ∧ c.toNat ≤ 90) := by
  unfold lowerChar at h
  by_cases hAZ : ('A' ≤ c && c ≤ 'Z') = true
  · right
    have h1 : 'A' ≤ c ∧ c ≤ 'Z' := by simpa using hAZ
    exact ⟨h1.1, h1.2⟩
  · left
    rw [if_neg hAZ] at h
    exact h

theorem char_beq_false_of_range (c d : Char) (h1 : 65 ≤ c.toNat) (h2 : c.toNat ≤ 90)
    (hd : d.toNat < 65 ∨ 90 < d.toNat) : (c == d) = false := by
  rw [beq_eq_false_iff_ne]
  intro he
  subst he
  omega

theorem jsSpace_AZ (c : Char) (h1 : 65 ≤ c.toNat) (h2 : c.toNat ≤ 90) :
    jsSpace c = false := by
  cases hs : jsSpace c with
  | false => rfl
  | true =>
    exfalso
    unfold jsSpace at hs
    simp only [Bool.or_eq_true, beq_iff_eq, Bool.and_eq_true, decide_eq_true_eq] at hs
    casesm* _ ∨ _
    all_goals subst_vars
    all_goals first
      | exact absurd h1 (by decide)
      | exact absurd h2 (by decide)
      | omega

theorem runChar_AZ (c : Char) (h1 : 65 ≤ c.toNat) (h2 : c.toNat ≤ 90) :
    runChar c = true := by
  unfold runChar
  rw [char_beq_false_of_range c '=' h1 h2 (by decide),
    char_beq_false_of_range c '&' h1 h2 (by decide),
    jsSpace_AZ c h1 h2]
  rfl

theorem kwchar_runChar (w : List Char) (hw : w ∈ kwList) :
    ∀ d ∈ w, runChar d = true := by
  intro d hd
  fin_cases hw <;> fin_cases hd <;> decide

theorem key_runChar (w k : List Char) (hw : w ∈ kwList) (hlk : lowerList k = w) :
    ∀ x ∈ k, runChar x = true := by
  intro x hx
  have hmem : lowerChar x ∈ w := by
    rw [← hlk]
    exact List.mem_map_of_mem lowerChar hx
  rcases lowerChar_cases x (lowerChar x) rfl with h1 | h2
  · rw [h1]
    exact kwchar_runChar w hw _ hmem
  · exact runChar_AZ x h2.1 h2.2

theorem lowerList_keyval (w k v : List Char) (hlk : lowerList k = w) :
    lowerList (k ++ '=' :: v) = w ++ '=' :: lowerList v := by
  unfold lowerList at *
  rw [List.map_append, hlk, List.map_cons]
  simp [show lowerChar '=' = '=' from by decide]

theorem matchKV_keyval (w k v : List Char) (hw : w ∈ kwList) (hlk : lowerList k = w)
    (hvne : v ≠ []) (hvc : ∀ x ∈ v, valChar x = true) :
    matchKV (k ++ '=' :: v) = some (k.length, v.length) := by
  have hlen : k.length = w.length := by
    rw [← hlk]; unfold lowerList; simp
  have hlow : lowerList (k ++ '=' :: v) = w ++ '=' :: lowerList v := lowerList_keyval w k v hlk
  have hself : ciStartsWith w (k ++ '=' :: v) = true := by
    unfold ciStartsWith; rw [hlow]; exact isPrefixL_self_append w _
  have hother : ∀ w' ∈ kwList, w' ≠ w → ciStartsWith w' (k ++ '=' :: v) = false := by
    intro w' hw' hne
    unfold ciStartsWith; rw [hlow]; exact kw_no_cross w w' hw hw' hne _
  have hdropEq : List.drop k.length (k ++ '=' :: v) = '=' :: v := List.drop_left k _
  have htake : List.takeWhile valChar v = v := takeWhile_all v hvc
  have hvz : (v.length == 0) = false := by
    cases v with
    | nil => exact absurd rfl hvne
    | cons a b => simp
  have hcong : ∀ (L : List (List Char)) (f g : List Char → Option Nat),
      (∀ e ∈ L, f e = g e) → L.findSome? f = L.findSome? g := by
    intro L
    induction L with
    | nil => intro f g _; rfl
    | cons a as ih =>
      intro f g h
      rw [List.findSome?_cons, List.findSome?_cons, h a (by simp),
        ih f g (fun e he => h e (List.mem_cons_of_mem a he))]
  have hentry : ∀ w' ∈ kwList,
      (if ciStartsWith w' (k ++ '=' :: v) then some w'.length else none)
        = (if w' = w then some w.length else none) := by
    intro w' hw'
    by_cases he : w' = w
    · subst he; rw [hself]; simp
    · rw [hother w' hw' he]; simp [he]
  have hfs : kwList.findSome?
      (fun w' => if ciStartsWith w' (k ++ '=' :: v) then some w'.length else none)
      = some w.length := by
    rw [hcong kwList _ (fun w' => if w' = w then some w.length else none) hentry]
    fin_cases hw <;> decide
  unfold matchKV
  rw [hfs, ← hlen]
  simp only [hdropEq, htake, hvz, Bool.false_eq_true, if_false]

theorem pass3Go_nil : ∀ m : Nat, pass3Go m ([] : List Char) = [] := by
  intro m; cases m <;> rfl

theorem pass3_keyval (w k v : List Char) (hw : w ∈ kwList) (hlk : lowerList k = w)
    (hvne : v ≠ []) (hvc : ∀ x ∈ v, valChar x = true) :
    pass3 (k ++ '=' :: v) = k ++ ("=[REDACTED]".data) := by
  have hm := matchKV_keyval w k v hw hlk hvne hvc
  have hkne : k ≠ [] := by
    intro h0
    rw [h0] at hlk
    fin_cases hw <;> simp [lowerList] at hlk
  obtain ⟨kc, k', hkc⟩ : ∃ c t, k = c :: t := by
    cases k with
    | nil => exact absurd rfl hkne
    | cons a b => exact ⟨a, b, rfl⟩
  subst hkc
  rw [List.cons_append] at hm ⊢
  unfold pass3
  simp only [List.length_cons]
  rw [pass3Go, hm]
  simp only
  rw [← List.cons_append, List.take_left]
  have hlen2 : (kc :: k').length + 1 + v.length = ((kc :: k') ++ '=' :: v).length := by
    simp [List.length_append]
    omega
  rw [hlen2, List.drop_length, pass3Go_nil]
  simp

theorem redact_keyval (w k v : List Char) (hw : w ∈ kwList) (hlk : lowerList k = w)
    (hvne : v ≠ []) (hv31 : v.length ≤ 31) (hvc : ∀ x ∈ v, valChar x = true) :
    redactStringL (k ++ '=' :: v) = k ++ ("=[REDACTED]".data) := by
  have hwlen : w.length ≤ 11 := by fin_cases hw <;> decide
  have hklen : k.length ≤ 11 := by
    have hkw : k.length = w.length := by rw [← hlk]; unfold lowerList; simp
    omega
  have hlen64 : (k ++ '=' :: v).length < 64 := by
    simp only [List.length_append, List.length_cons]
    omega
  have h1 : pass1 (k ++ '=' :: v) = k ++ '=' :: v := pass1_id _ hlen64
  have hrun : ∀ x ∈ k, runChar x = true := key_runChar w k hw hlk
  have h2 : pass2 (k ++ '=' :: v) = k ++ '=' :: v := by
    unfold pass2
    rw [pass2Go_through k _ v hrun (by omega) (by simp only [List.length_append, List.length_cons]; omega)]
    rw [pass2Go_id31 _ v hv31]
  unfold redactStringL
  rw [h1, h2, pass3_keyval w k v hw hlk hvne hvc]

theorem logLine_password_long :
    logLine .info [.vstr "password=abc123XYZsecretlongvaluepadding1234567890"]
      = "[INFO] password=[REDACTED]\n" := by decide

theorem redactSensitive_apiKey (vs : String) :
    redactSensitive (.vobj [("apiKey", .vstr vs)]) = .vobj [("apiKey", .vstr "[REDACTED]")] := by
  rw [redactSensitive, redactFields, redactFields]
  simp [show sensitiveName "apiKey" = true from by decide]

theorem logLine_apiKey (vs : String) :
    logLine .info [.vobj [("apiKey", .vstr vs)]] = "[INFO] [object Object]\n" := by
  unfold logLine
  rw [List.map_cons, List.map_nil, redactSensitive_apiKey vs]
  rfl

/-! ## C2: redaction of key=value secrets and key-named fields -/

/-- C2 counterexample: `"password= abc"` is a string of the form
key=value with key `password` and value `" abc"`, yet all three
replace passes leave it unchanged (the value regex `[^&\s]+` requires a
non-space first character), so the emitted line contains the original
secret value `" abc"` verbatim. -/
theorem spec_c2_cex :
    ("password= abc" = "password" ++ "=" ++ " abc")
    ∧ redactString "password= abc" = "password= abc"
    ∧ containsSub (logLine .info [.vstr "password= abc"]) " abc" = true := by
  refine ⟨by rfl, by decide, by decide⟩

/-- C2 (amended): the redaction guarantee holds for the spec's own
round-trip instances and for well-formed key=value fragments, not for
every value.  (1) The concrete instance
`emit('info', 'password=abc123XYZsecretlongvaluepadding1234567890')`
emits exactly `[INFO] password=[REDACTED]` — no occurrence of the
value.  (2) A mapping argument with a key-named field has the field
value replaced wholesale by the marker before printing, and the printed
line is the fixed text `[INFO] [object Object]` whatever the value.
(3) For every string `k ++ "=" ++ v` whose key lowercases to one of
{private_key, secret, key, token, password} and whose value is a
non-empty run of at most 31 characters none of which is `&` or
whitespace, the sanitized string is exactly `k ++ "=[REDACTED]"`; hence
the emitted line contains the original value only in the degenerate
case that the value occurs inside that fixed redacted text.  Values
that begin with whitespace or `&` escape redaction entirely (see the
counterexample). -/
theorem spec_c2 (k v : List Char) (vs : String) :
    (logLine .info [.vstr "password=abc123XYZsecretlongvaluepadding1234567890"]
        = "[INFO] password=[REDACTED]\n")
    ∧ redactSensitive (.vobj [("apiKey", .vstr vs)]) = .vobj [("apiKey", .vstr "[REDACTED]")]
    ∧ logLine .info [.vobj [("apiKey", .vstr vs)]] = "[INFO] [object Object]\n"
    ∧ (lowerList k ∈ kwList → v ≠ [] → v.length ≤ 31 → (∀ x ∈ v, valChar x = true) →
        redactStringL (k ++ '=' :: v) = k ++ ("=[REDACTED]".data)) := by
  refine ⟨logLine_password_long, redactSensitive_apiKey vs, logLine_apiKey vs, ?_⟩
  intro hk hvne hv31 hvc
  exact redact_keyval (lowerList k) k v hk rfl hvne hv31 hvc

/-- Witness for C2 at a concrete mixed-case fragment: `PassWord=hunter2`
redacts to `PassWord=[REDACTED]`. -/
theorem spec_c2_witness :
    redactStringL (['P', 'a', 's', 's', 'W', 'o', 'r', 'd'] ++ '=' :: ['h', 'u', 'n', 't', 'e', 'r', '2'])
      = ['P', 'a', 's', 's', 'W', 'o', 'r', 'd'] ++ ("=[REDACTED]".data) :=
  (spec_c2 ['P', 'a', 's', 's', 'W', 'o', 'r', 'd'] ['h', 'u', 'n', 't', 'e', 'r', '2'] "x").2.2.2
    (by decide) (by decide) (by decide) (by decide)

end TwitterMcp
